import Mathlib

/-!
# Verification of `ci/sync_dependencies.py`

A shallow embedding of the dependency-sync script: the marker-based
reference rewrite (`GitRepo.replace_marker`), the commit/push decision, the
workspace-name derivation (`GitRepo.bazel_workspace`), the lazy clone and
configure state machine, the `git ls-remote` output parsing
(`GitRepo.last_commit`), the credential lookup (`grabl_credential`) and the
coordinate parsing (`GitRepo.__init__`).  Stateful and subprocess-touching
code is modelled by explicit state records and by traces of `GitAction`
values; the textual responses of the outside world (file contents,
`git status` output, `git ls-remote` output) are passed in as parameters.
-/

/-- Characters matched by the character class of
`COMMIT_HASH_REGEX = r'[0-9a-f]\x7b40\x7d'`. -/
def isCommitHashChar (c : Char) : Bool :=
  ('0' ≤ c && c ≤ '9') || ('a' ≤ c && c ≤ 'f')

/-- Whether a match of the 40-hex-character pattern starts
at position `p` of `s`: there are at least 40 characters left and the next
40 are all in `[0-9a-f]`. -/
def hexRunAt (s : List Char) (p : Nat) : Bool :=
  decide (p + 40 ≤ s.length) && ((s.drop p).take 40).all isCommitHashChar

/-- Model of `re.sub(COMMIT_HASH_REGEX, rev, line, 1)` on the character list of
`line`: scan left to right and splice `rev` over the first (leftmost)
40-hex-character run; everything else is kept.  (The replacement text the
script passes is a git commit hash, which contains no backslash, so the
backslash-escape processing of `re.sub` is the identity on it.) -/
def subFirst (rev : List Char) : List Char → List Char
  | [] => []
  | c :: rest =>
    if hexRunAt (c :: rest) 0 then rev ++ (c :: rest).drop 40
    else c :: subFirst rev rest

/-- String-level wrapper for the single substitution
`re.sub(COMMIT_HASH_REGEX, rev, line, 1)`. -/
def re_sub_hash (rev line : String) : String :=
  String.mk (subFirst rev.toList line.toList)

/-- Python's substring test `pat in s` on character lists. -/
def pyIn (pat : List Char) : List Char → Bool
  | [] => pat.isEmpty
  | c :: rest => pat.isPrefixOf (c :: rest) || pyIn pat rest

/-- Python's substring test `pat in s` on strings. -/
def strIn (pat s : String) : Bool := pyIn pat.toList s.toList

/-- Constant `GitRepo.GRAKNLABS_PREFIX`. -/
def graknlabsPrefixStr : String := "graknlabs_"

/-- Constant `GitRepo.GRAKN_CORE_REPO_NAME`. -/
def GRAKN_CORE_REPO_NAME : String := "grakn"

/-- Constant `GitRepo.GRAKN_CORE_WORKSPACE`. -/
def GRAKN_CORE_WORKSPACE : String := graknlabsPrefixStr ++ "grakn_core"

/-- Constant `GitRepo.CLEAN_TREE_MSG`. -/
def CLEAN_TREE_MSG : String := "nothing to commit, working tree clean"

/-- Constant `GitRepo.GIT_USERNAME`. -/
def GIT_USERNAME : String := "Grabl"

/-- Constant `GitRepo.GIT_EMAIL`. -/
def GIT_EMAIL : String := "grabl@grakn.ai"

/-- Python's `s.replace(old, new)` for single-character `old`/`new`
(as used to turn dashes of `self.repo` into underscores): every occurrence is replaced. -/
def pyReplaceChar (old new : Char) (s : String) : String :=
  String.mk (s.toList.map (fun c => if c = old then new else c))

/-- Model of `GitRepo.bazel_workspace`: the derived bazel workspace name of a
repository name. -/
def bazel_workspace (repo : String) : String :=
  if repo = GRAKN_CORE_REPO_NAME then GRAKN_CORE_WORKSPACE
  else graknlabsPrefixStr ++ pyReplaceChar '-' '_' repo

/-- Constant `GitRepo.SYNC_MARKER` formatted with `ws_name`. -/
def SYNC_MARKER (ws_name : String) : String :=
  "# sync-marker: do not remove this comment, this is used for sync-dependencies by @"
    ++ ws_name

/-- Pure data of a constructed `GitRepo` object (repository name, branch,
credential); the lazily resolved fields are modelled separately. -/
structure GitRepoData where
  repo : String
  branch : String
  credential : String
deriving DecidableEq

/-- Model of `GitRepo.marker`: the sync marker of a repository workspace. -/
def marker (r : GitRepoData) : String := SYNC_MARKER (bazel_workspace r.repo)

/-- Constant `GitRepo.GRAKN_AUTHENTICATED_REMOTE_TEMPLATE` formatted with
credential and repo: `GitRepo.remote_url`. -/
def remote_url (r : GitRepoData) : String :=
  "https://" ++ r.credential ++ "@github.com/graknlabs/" ++ r.repo ++ ".git"

/-- The `for i, line in enumerate(workspace_content): ... else: ...` loop of
`GitRepo.replace_marker`: rewrite the first line containing `markerStr`
(replacing its first 40-hex run by `rev`) and keep the rest; `none` is the
`for ... else` branch, reached when no line contains the marker. -/
def replace_marker_content (markerStr rev : String) : List String → Option (List String)
  | [] => none
  | line :: rest =>
    if strIn markerStr line then some (re_sub_hash rev line :: rest)
    else
      match replace_marker_content markerStr rev rest with
      | none => none
      | some rest' => some (line :: rest')

/-- Externally observable actions of the script: file writes, git
subprocess invocations and console messages. -/
inductive GitAction where
  | writeWorkspace (content : List String)
  | gitAdd (file : String)
  | gitStatus (lang : String)
  | gitCommit (message : String)
  | gitPush (url : String) (branch : String)
  | configUserEmail (email : String)
  | configUserName (name : String)
  | gitClone (url : String) (dir : String)
  | gitCheckout (branch : String)
  | lsRemote (url : String) (branch : String)
  | printMsg (msg : String)
deriving DecidableEq

/-- Number of `git commit` actions in a trace. -/
def countCommits : List GitAction → Nat
  | [] => 0
  | .gitCommit _ :: rest => countCommits rest + 1
  | _ :: rest => countCommits rest

/-- Number of `git push` actions in a trace. -/
def countPushes : List GitAction → Nat
  | [] => 0
  | .gitPush _ _ :: rest => countPushes rest + 1
  | _ :: rest => countPushes rest

/-- Number of manifest writes in a trace. -/
def countWrites : List GitAction → Nat
  | [] => 0
  | .writeWorkspace _ :: rest => countWrites rest + 1
  | _ :: rest => countWrites rest

/-- Number of `git add` actions in a trace. -/
def countAdds : List GitAction → Nat
  | [] => 0
  | .gitAdd _ :: rest => countAdds rest + 1
  | _ :: rest => countAdds rest

/-- Number of `git clone` actions in a trace. -/
def countClones : List GitAction → Nat
  | [] => 0
  | .gitClone _ _ :: rest => countClones rest + 1
  | _ :: rest => countClones rest

/-- Number of `git checkout` actions in a trace. -/
def countCheckouts : List GitAction → Nat
  | [] => 0
  | .gitCheckout _ :: rest => countCheckouts rest + 1
  | _ :: rest => countCheckouts rest

/-- Number of runs of the identity-configuration step (`GitRepo.configure`,
counted by its first subprocess call, `git config --global user.email`). -/
def countConfigures : List GitAction → Nat
  | [] => 0
  | .configUserEmail _ :: rest => countConfigures rest + 1
  | _ :: rest => countConfigures rest

/-- Model of `GitRepo.replace_marker(other)` on an already-cloned repository `self`,
as a trace of actions.  `other_last_commit` is the (memoized) value of
`other.last_commit`; `workspace_content` is what `readlines()` returned for
the WORKSPACE file; `status_out` is what `git status` (run with
with the fixed locale `LANG=C`) printed after `git add WORKSPACE`. -/
def replace_marker (self other : GitRepoData) (other_last_commit : String)
    (workspace_content : List String) (status_out : String) : List GitAction :=
  match replace_marker_content (marker other) other_last_commit workspace_content with
  | none =>
    [.printMsg ("@" ++ bazel_workspace self.repo ++ " has no dependency marker of @"
        ++ bazel_workspace other.repo ++ " to replace")]
  | some newContent =>
    [.writeWorkspace newContent, .gitAdd "WORKSPACE", .gitStatus "C"] ++
    (if strIn CLEAN_TREE_MSG status_out then
      [.printMsg ("@" ++ bazel_workspace self.repo ++ " already depends on @"
          ++ bazel_workspace other.repo ++ " at commit " ++ other_last_commit)]
    else
      [.gitCommit ("update @" ++ bazel_workspace other.repo ++ " dependency to latest "
          ++ other.branch),
       .printMsg ("Pushing the change to " ++ remote_url self ++ " (" ++ self.branch
          ++ " branch)"),
       .gitPush (remote_url self) self.branch,
       .printMsg ("The change has been pushed to " ++ remote_url self ++ " ("
          ++ self.branch ++ " branch)")])

/-- Mutable per-object state of a `GitRepo`: the `is_configured` flag and
the memoized `clone_dir` (both set in `__init__` to `False` / `None`). -/
structure RunState where
  is_configured : Bool
  clone_dir : Option String
deriving DecidableEq

/-- The state of a freshly constructed `GitRepo`. -/
def initState : RunState := { is_configured := false, clone_dir := none }

/-- The subprocess calls of `GitRepo.configure` (note: the source does not
set `is_configured` there, so `configure` leaves the state unchanged). -/
def configure_actions : List GitAction :=
  [.configUserEmail GIT_EMAIL, .configUserName GIT_USERNAME]

/-- Model of `GitRepo.clone` with its `@ensure_configured` decorator: run
`configure` if the `is_configured` flag is unset (the flag itself is never
mutated by the source), then clone into the fresh temp directory `temp_dir`
and check out the branch, memoizing `clone_dir`. -/
def clone_op (s : RunState) (temp_dir remote branch : String) : RunState × List GitAction :=
  ({ s with clone_dir := some temp_dir },
   (if s.is_configured then [] else configure_actions)
     ++ [.gitClone remote temp_dir, .gitCheckout branch])

/-- The `@ensure_cloned` obtention of a working copy: if `clone_dir` is
already memoized return it without any action, otherwise run
`GitRepo.clone` (with `temp_dir` as the fresh directory `mkdtemp` made). -/
def ensure_cloned_dir (s : RunState) (temp_dir remote branch : String) :
    RunState × String × List GitAction :=
  match s.clone_dir with
  | some d => (s, d, [])
  | none =>
    let r := clone_op s temp_dir remote branch
    (r.1, temp_dir, r.2)

/-- A sequence of working-copy obtentions on one `GitRepo`, each handed a
fresh candidate temp directory; returns the final state, the directories
returned to the callers, and the whole action trace. -/
def run_obtains (s : RunState) (remote branch : String) : List String → RunState × List String × List GitAction
  | [] => (s, [], [])
  | d :: ds =>
    let r1 := ensure_cloned_dir s d remote branch
    let r2 := run_obtains r1.1 remote branch ds
    (r2.1, r1.2.1 :: r2.2.1, r1.2.2 ++ r2.2.2)

/-- Python `str.split()` whitespace (the characters `str.split` with no
argument splits on). -/
def isWs (c : Char) : Bool :=
  c = ' ' || c = '\t' || c = '\n' || c = '\r' || c = '\x0b' || c = '\x0c'

/-- Python `str.split()` with no argument: runs of whitespace separate
maximal non-whitespace tokens; there are no empty tokens.  Structured as a
character scan with one character of lookahead so that it computes by
kernel reduction. -/
def pySplit : List Char → List (List Char)
  | [] => []
  | [c] => if isWs c then [] else [[c]]
  | c :: d :: rest =>
    if isWs c then pySplit (d :: rest)
    else if isWs d then [c] :: pySplit (d :: rest)
    else
      match pySplit (d :: rest) with
      | [] => [[c]]
      | t :: ts => (c :: t) :: ts

/-- A fatal error of `GitRepo.last_commit`: the `git ls-remote` subprocess
exited non-zero (`CalledProcessError` from `check_output`) or its output had
no token at all (`IndexError` from `split()[0]`). -/
inductive LastCommitFatal where
  | calledProcessError (returncode : Nat)
  | indexError
deriving DecidableEq

/-- Model of the `GitRepo.last_commit` body applied to the result of the
`git ls-remote` subprocess (`.error code` models a non-zero exit of
`check_output`, `.ok out` its captured output):
`git_output.split()[0]`, with both failure modes propagated. -/
def last_commit_step (query : Except Nat String) : Except LastCommitFatal String :=
  match query with
  | .error code => .error (.calledProcessError code)
  | .ok out =>
    match pySplit out.toList with
    | [] => .error .indexError
    | t :: _ => .ok (String.mk t)

/-- The first line of a piece of process output (everything before the
first newline). -/
def first_line (out : String) : String :=
  String.mk (out.toList.takeWhile (fun c => c ≠ '\n'))

/-- Modelled from the spec: "the first whitespace-delimited token of the
first line of the query's output" — the value the spec says
`latest_revision` returns; `none` when the first line has no token.  Used
as the specification side compared against `last_commit_step`. -/
def spec_first_token_of_first_line (out : String) : Option String :=
  match pySplit (first_line out).toList with
  | [] => none
  | t :: _ => some (String.mk t)

/-- The process environment variables the script reads. -/
structure PyEnv where
  circle_repository_url : Option String
  grabl_credential_var : Option String
deriving DecidableEq

/-- Model of `is_building_upstream()`: whether the literal text graknlabs occurs in the CIRCLE_REPOSITORY_URL variable (default: the empty string). -/
def is_building_upstream (env : PyEnv) : Bool :=
  strIn "graknlabs" (env.circle_repository_url.getD "")

/-- Model of `grabl_credential()`: raises `ValueError` when `GRABL_CREDENTIAL` is
absent from the environment, otherwise returns the credential prefixed by the literal text grabl and a colon. -/
def grabl_credential (env : PyEnv) : Except String String :=
  match env.grabl_credential_var with
  | none => .error ("building the upstream repo requires having $GRABL_CREDENTIAL env variable")
  | some cred => .ok ("grabl:" ++ cred)

/-- Python split on a colon separator, on character lists: split at every
colon, keeping empty pieces (the empty string yields one empty piece). -/
def splitColon : List Char → List (List Char)
  | [] => [[]]
  | c :: rest =>
    if c = ':' then [] :: splitColon rest
    else
      match splitColon rest with
      | [] => [[c]]
      | p :: ps => (c :: p) :: ps

/-- Python split of `git_coordinates` on the colon separator, on strings. -/
def splitColonStr (s : String) : List String :=
  (splitColon s.toList).map (fun l => String.mk l)

/-- The errors `GitRepo.__init__` can raise: the explicit `ValueError` for
malformed coordinates, or the `ValueError` propagated from
`grabl_credential()`. -/
inductive InitError where
  | valueError
  | credentialError
deriving DecidableEq

/-- Model of `GitRepo.__init__(git_coordinates)`: split the coordinates at colons,
raise `ValueError` unless there are exactly two parts, bind `repo` and
`branch` to them, then look up the credential (which may itself raise). -/
def gitRepoInit (env : PyEnv) (git_coordinates : String) : Except InitError GitRepoData :=
  let coords := splitColonStr git_coordinates
  if coords.length ≠ 2 then .error .valueError
  else
    match grabl_credential env with
    | .error _ => .error .credentialError
    | .ok cred => .ok { repo := coords.getD 0 "", branch := coords.getD 1 "", credential := cred }

/-- Outcome of a run of `main()`. -/
inductive MainOutcome where
  | exitZeroNotUpstream
  | credentialError
  | coordsError
  | completed
deriving DecidableEq

/-- Model of the user-list construction in `main()`: construct every user repository,
propagating the first construction error. -/
def sequenceInit (env : PyEnv) : List String → Except InitError (List GitRepoData)
  | [] => .ok []
  | t :: ts =>
    match gitRepoInit env t with
    | .error e => .error e
    | .ok r =>
      match sequenceInit env ts with
      | .error e => .error e
      | .ok rs => .ok (r :: rs)

/-- The outside world's responses used while processing one user
repository: the fresh temp directory `mkdtemp` produces, the lines of its
WORKSPACE file, and the `git status` output after staging. -/
structure UserWorld where
  temp_dir : String
  manifest : List String
  status_out : String
deriving DecidableEq

/-- The per-user loop of `main()`: `user.clone()` (on the fresh object,
so it configures and clones) followed by `user.replace_marker(dependency)`
(whose `@ensure_cloned` guard finds `clone_dir` already set). -/
def userLoop (dep : GitRepoData) (dep_commit : String) :
    List (GitRepoData × UserWorld) → List GitAction
  | [] => []
  | (u, w) :: rest =>
    (clone_op initState w.temp_dir (remote_url u) u.branch).2
      ++ replace_marker u dep dep_commit w.manifest w.status_out
      ++ userLoop dep dep_commit rest

/-- Model of `main()` as a function of the environment, the command-line coordinate
tokens and the outside world's responses (`dep_commit` is the revision the
`git ls-remote` on the dependency reported, `worlds` the per-user
responses, zipped with the users):  the upstream guard, the eager
`grabl_credential()` check, `GitRepo` construction for the dependency and
every user, then the `last_commit` query and the user loop. -/
def mainModel (env : PyEnv) (dependencyArg : String) (userArgs : List String)
    (dep_commit : String) (worlds : List UserWorld) : MainOutcome × List GitAction :=
  if ! is_building_upstream env then (.exitZeroNotUpstream, [])
  else
    match grabl_credential env with
    | .error _ => (.credentialError, [])
    | .ok _ =>
      match gitRepoInit env dependencyArg with
      | .error _ => (.coordsError, [])
      | .ok dep =>
        match sequenceInit env userArgs with
        | .error _ => (.coordsError, [])
        | .ok users =>
          (.completed,
           .lsRemote (remote_url dep) dep.branch :: userLoop dep dep_commit (users.zip worlds))

/-- A concrete dependency repository used in witnesses. -/
def demoDependency : GitRepoData :=
  { repo := "core", branch := "main", credential := "grabl:token" }

/-- A concrete dependent repository used in witnesses. -/
def demoUser : GitRepoData :=
  { repo := "docs", branch := "development", credential := "grabl:token" }

/-- A concrete latest-revision value used in witnesses (40 hex chars). -/
def demoRev : String := "bbbbbbbbbbbbbbbbbbbbbbbbbbbbbbbbbbbbbbbb"

/-- A concrete dependent manifest used in witnesses: its second line bears
the marker of `demoDependency` and a 40-hex revision. -/
def demoContent : List String :=
  ["workspace(name = docs)\n",
   "core_commit = aaaaaaaaaaaaaaaaaaaaaaaaaaaaaaaaaaaaaaaa # sync-marker: do not remove this comment, this is used for sync-dependencies by @graknlabs_core\n",
   "end_of_file\n"]

/-- The rewritten `demoContent` (its marker line with `demoRev` spliced in). -/
def demoNewContent : List String :=
  ["workspace(name = docs)\n",
   "core_commit = bbbbbbbbbbbbbbbbbbbbbbbbbbbbbbbbbbbbbbbb # sync-marker: do not remove this comment, this is used for sync-dependencies by @graknlabs_core\n",
   "end_of_file\n"]

/-- A `git status` output containing the clean-tree sentinel. -/
def demoStatusClean : String :=
  "On branch development\nnothing to commit, working tree clean\n"

/-- A `git status` output not containing the clean-tree sentinel. -/
def demoStatusDirty : String :=
  "On branch development\nChanges to be committed: modified WORKSPACE\n"

/-- A concrete manifest with no marker line for `demoDependency`. -/
def demoContentNoMarker : List String :=
  ["workspace(name = docs)\n",
   "unrelated_commit = aaaaaaaaaaaaaaaaaaaaaaaaaaaaaaaaaaaaaaaa\n",
   "end_of_file\n"]

/-- Number of colons in a character list. -/
def countColon : List Char → Nat
  | [] => 0
  | c :: rest => (if c = ':' then 1 else 0) + countColon rest

/-- A 40-hex run cannot start at or beyond the end of the string. -/
theorem hexRunAt_lt_length {s : List Char} {q : Nat} (h : hexRunAt s q = true) :
    q < s.length := by
  unfold hexRunAt at h
  rcases Bool.and_eq_true_iff.mp h with ⟨h1, _⟩
  have := of_decide_eq_true h1
  omega

/-- Shifting a 40-hex-run test past a head character. -/
theorem hexRunAt_cons (c : Char) (t : List Char) (q : Nat) :
    hexRunAt (c :: t) (q + 1) = hexRunAt t q := by
  unfold hexRunAt
  rw [List.drop_succ_cons]
  congr 1
  simp only [List.length_cons]
  rw [decide_eq_decide]
  omega

/-- If the pattern matches at the head, `subFirst` splices there. -/
theorem subFirst_pos (rev : List Char) (l : List Char) (h : hexRunAt l 0 = true) :
    subFirst rev l = rev ++ l.drop 40 := by
  rcases l with _ | ⟨c, rest⟩
  · simp [hexRunAt] at h
  · simp [subFirst, h]

/-- If the pattern does not match at the head, `subFirst` keeps the head. -/
theorem subFirst_neg (rev : List Char) (c : Char) (rest : List Char)
    (h : hexRunAt (c :: rest) 0 = false) :
    subFirst rev (c :: rest) = c :: subFirst rev rest := by
  simp [subFirst, h]

/-- A line with no 40-hex run anywhere passes through `subFirst` unchanged
(the silent-no-op edge case of the rewrite). -/
theorem subFirst_eq_self (rev : List Char) :
    ∀ l : List Char, (∀ q, hexRunAt l q = false) → subFirst rev l = l := by
  intro l
  induction l with
  | nil => intro _; rfl
  | cons c rest ih =>
    intro h
    rw [subFirst_neg rev c rest (h 0)]
    exact congrArg (c :: ·) (ih fun q => by rw [← hexRunAt_cons c rest q]; exact h (q + 1))

/-- If no 40-hex run starts inside `pre` and `H` is exactly 40 hex
characters, `subFirst` on `pre ++ H ++ suf` replaces exactly `H`. -/
theorem subFirst_append (rev H suf : List Char) (hH : H.length = 40)
    (hhex : H.all isCommitHashChar = true) :
    ∀ pre : List Char, (∀ q, q < pre.length → hexRunAt (pre ++ (H ++ suf)) q = false) →
      subFirst rev (pre ++ (H ++ suf)) = pre ++ (rev ++ suf) := by
  intro pre
  induction pre with
  | nil =>
    intro _
    simp only [List.nil_append]
    have hguard : hexRunAt (H ++ suf) 0 = true := by
      unfold hexRunAt
      rw [List.drop_zero, List.take_append_of_le_length (by omega), List.take_of_length_le (by omega)]
      simp only [hhex, Bool.and_true]
      rw [decide_eq_true_eq]
      simp only [List.length_append]
      omega
    rw [subFirst_pos rev (H ++ suf) hguard, List.drop_left' hH]
  | cons c pre' ih =>
    intro h
    rw [List.cons_append, subFirst_neg rev c (pre' ++ (H ++ suf))
      (by have := h 0 (by simp); rwa [List.cons_append] at this)]
    rw [ih fun q hq => by
      have := h (q + 1) (by simpa using Nat.succ_lt_succ hq)
      rwa [List.cons_append, hexRunAt_cons] at this]
    rfl

/-- Testing all elements commutes with mapping the test. -/
theorem allMapId (l : List Char) (f : Char → Bool) : (l.map f).all id = l.all f := by
  induction l with
  | nil => rfl
  | cons c rest ih => simp [List.all_cons, ih]

/-- A list that is all-`p` maps under `p` to a replicate of `true`. -/
theorem allMapReplicate (p : Char → Bool) :
    ∀ l : List Char, l.all p = true → l.map p = List.replicate l.length true := by
  intro l
  induction l with
  | nil => intro _; rfl
  | cons c rest ih =>
    intro h
    rw [List.all_cons, Bool.and_eq_true_iff] at h
    simp [List.replicate_succ, h.1, ih h.2]

/-- Two character lists whose hex-character profiles agree have the same
40-hex runs everywhere. -/
theorem hexRunAt_congr {s t : List Char}
    (h : s.map isCommitHashChar = t.map isCommitHashChar) (q : Nat) :
    hexRunAt s q = hexRunAt t q := by
  have hlen : s.length = t.length := by
    have h2 := congrArg List.length h
    simpa [List.length_map] using h2
  unfold hexRunAt
  rw [hlen]
  congr 1
  have hs : ((s.drop q).take 40).map isCommitHashChar
      = ((t.drop q).take 40).map isCommitHashChar := by
    rw [List.map_take, List.map_take, List.map_drop, List.map_drop, h]
  calc ((s.drop q).take 40).all isCommitHashChar
      = (((s.drop q).take 40).map isCommitHashChar).all id := (allMapId _ _).symm
    _ = (((t.drop q).take 40).map isCommitHashChar).all id := by rw [hs]
    _ = ((t.drop q).take 40).all isCommitHashChar := allMapId _ _

/-- Round trip of `String.mk` and `String.toList`. -/
theorem toListMk (l : List Char) : (String.mk l).toList = l := rfl

/-- Round trip of `String.toList` and `String.mk`. -/
theorem mkToList (s : String) : String.mk s.toList = s := rfl

/-- C3: for every line containing exactly one 40-hex substring `H` (it sits
between `pre` and `suf` and no 40-hex run starts anywhere else) and every
40-hex revision `R`, the rewrite yields the line with `H` replaced by `R`
and nothing else changed, and rewriting again with the same `R` is a
no-op. -/
theorem claim3_rewrite_unique_hex_idempotent
    (line R : String) (pre H suf : List Char)
    (hdecomp : line.toList = pre ++ H ++ suf)
    (hH40 : H.length = 40) (hHhex : H.all isCommitHashChar = true)
    (huniq : ∀ q, q < line.toList.length → hexRunAt line.toList q = true → q = pre.length)
    (hR40 : R.toList.length = 40) (hRhex : R.toList.all isCommitHashChar = true) :
    re_sub_hash R line = String.mk (pre ++ R.toList ++ suf) ∧
      re_sub_hash R (re_sub_hash R line) = re_sub_hash R line := by
  have hpre_old : ∀ q, q < pre.length → hexRunAt line.toList q = false := by
    intro q hq
    cases hb : hexRunAt line.toList q with
    | false => rfl
    | true =>
      have hlt := hexRunAt_lt_length hb
      have := huniq q hlt hb
      omega
  have hsub1 : subFirst R.toList line.toList = pre ++ (R.toList ++ suf) := by
    rw [hdecomp, List.append_assoc]
    exact subFirst_append R.toList H suf hH40 hHhex pre
      (fun q hq => by rw [← List.append_assoc, ← hdecomp]; exact hpre_old q hq)
  have part1 : re_sub_hash R line = String.mk (pre ++ R.toList ++ suf) := by
    unfold re_sub_hash
    rw [hsub1, List.append_assoc]
  have hmap : (pre ++ (R.toList ++ suf)).map isCommitHashChar
      = line.toList.map isCommitHashChar := by
    rw [hdecomp, List.append_assoc]
    simp only [List.map_append]
    rw [allMapReplicate _ _ hHhex, allMapReplicate _ _ hRhex, hH40, hR40]
  have hpre_new : ∀ q, q < pre.length → hexRunAt (pre ++ (R.toList ++ suf)) q = false :=
    fun q hq => (hexRunAt_congr hmap q).trans (hpre_old q hq)
  have hsub2 : subFirst R.toList (pre ++ (R.toList ++ suf)) = pre ++ (R.toList ++ suf) :=
    subFirst_append R.toList R.toList suf hR40 hRhex pre hpre_new
  refine ⟨part1, ?_⟩
  rw [part1]
  show String.mk (subFirst R.toList (pre ++ R.toList ++ suf)) = String.mk (pre ++ R.toList ++ suf)
  rw [List.append_assoc, hsub2]

/-- A map that changes nothing changes nothing. -/
theorem mapNoDash : ∀ l : List Char, (∀ c ∈ l, c ≠ '-') →
    l.map (fun c => if c = '-' then '_' else c) = l := by
  intro l
  induction l with
  | nil => intro _; rfl
  | cons c rest ih =>
    intro h
    have hc : c ≠ '-' := h c (List.mem_cons_self c rest)
    rw [List.map_cons, if_neg hc, ih fun x hx => h x (List.mem_cons_of_mem c hx)]

/-- Reading an element after a `map`. -/
theorem getDMap (f : Char → Char) : ∀ (l : List Char) (i : Nat), i < l.length →
    (l.map f).getD i ' ' = f (l.getD i ' ') := by
  intro l
  induction l with
  | nil => intro i hi; simp at hi
  | cons c rest ih =>
    intro i hi
    cases i with
    | zero => rfl
    | succ n =>
      rw [List.map_cons, List.getD_cons_succ, List.getD_cons_succ]
      exact ih n (by simpa using Nat.lt_of_succ_lt_succ hi)

/-- C5: the workspace identifier is a pure function of the repository name:
the legacy name `grakn` maps to `graknlabs_grakn_core`, overriding the
generic rule; every other name maps to the prefix `graknlabs_` followed by
the name with every dash turned into an underscore; dash-free names map to
prefix + name unchanged. -/
theorem claim5_workspace_pure_function :
    (bazel_workspace GRAKN_CORE_REPO_NAME = GRAKN_CORE_WORKSPACE ∧
      bazel_workspace "grakn" = "graknlabs_grakn_core") ∧
    (∀ repo : String, repo ≠ GRAKN_CORE_REPO_NAME →
      bazel_workspace repo = graknlabsPrefixStr ++ pyReplaceChar '-' '_' repo) ∧
    (∀ repo : String, repo ≠ GRAKN_CORE_REPO_NAME → (∀ c ∈ repo.toList, c ≠ '-') →
      bazel_workspace repo = graknlabsPrefixStr ++ repo) ∧
    (∀ repo : String, (pyReplaceChar '-' '_' repo).toList.length = repo.toList.length ∧
      ∀ i, i < repo.toList.length →
        (pyReplaceChar '-' '_' repo).toList.getD i ' ' =
          (if repo.toList.getD i ' ' = '-' then '_' else repo.toList.getD i ' ')) := by
  refine ⟨⟨by decide, by decide⟩, ?_, ?_, ?_⟩
  · intro repo h
    rw [bazel_workspace, if_neg h]
  · intro repo h hnd
    rw [bazel_workspace, if_neg h]
    unfold pyReplaceChar
    rw [mapNoDash repo.toList hnd, mkToList]
  · intro repo
    constructor
    · unfold pyReplaceChar
      rw [toListMk, List.length_map]
    · intro i hi
      unfold pyReplaceChar
      rw [toListMk, getDMap _ repo.toList i hi]

/-- Concrete instances of C5: the generic rule on a dashed name, the
dash-free rule, and the legacy override. -/
theorem claim5_workspace_pure_function_witness :
    bazel_workspace "client-python" = "graknlabs_client_python" ∧
    bazel_workspace "docs" = "graknlabs_docs" ∧
    bazel_workspace "grakn" = "graknlabs_grakn_core" := by
  refine ⟨?_, ?_, ?_⟩
  · have h := claim5_workspace_pure_function.2.1 "client-python" (by decide)
    exact h.trans (by decide)
  · have h := claim5_workspace_pure_function.2.2.1 "docs" (by decide) (by decide)
    exact h.trans (by decide)
  · exact claim5_workspace_pure_function.1.2

/-- Concrete instance of C3: the line `x{40 hex}y` with revision `{40 b}`
rewrites exactly once and idempotently. -/
theorem claim3_rewrite_unique_hex_idempotent_witness :
    re_sub_hash "bbbbbbbbbbbbbbbbbbbbbbbbbbbbbbbbbbbbbbbb" "xaaaaaaaaaaaaaaaaaaaaaaaaaaaaaaaaaaaaaaaay" =
      String.mk ("x".toList ++ "bbbbbbbbbbbbbbbbbbbbbbbbbbbbbbbbbbbbbbbb".toList ++ "y".toList) ∧
      re_sub_hash "bbbbbbbbbbbbbbbbbbbbbbbbbbbbbbbbbbbbbbbb" (re_sub_hash "bbbbbbbbbbbbbbbbbbbbbbbbbbbbbbbbbbbbbbbb" "xaaaaaaaaaaaaaaaaaaaaaaaaaaaaaaaaaaaaaaaay") =
        re_sub_hash "bbbbbbbbbbbbbbbbbbbbbbbbbbbbbbbbbbbbbbbb" "xaaaaaaaaaaaaaaaaaaaaaaaaaaaaaaaaaaaaaaaay" :=
  claim3_rewrite_unique_hex_idempotent "xaaaaaaaaaaaaaaaaaaaaaaaaaaaaaaaaaaaaaaaay" "bbbbbbbbbbbbbbbbbbbbbbbbbbbbbbbbbbbbbbbb"
    "x".toList "aaaaaaaaaaaaaaaaaaaaaaaaaaaaaaaaaaaaaaaa".toList "y".toList
    (by decide) (by decide) (by decide) (by decide) (by decide) (by decide)

/-- A line with at least one 40-hex run decomposes around its leftmost
run. -/
theorem exists_leftmost_decomp (l : List Char) (hex : ∃ q, hexRunAt l q = true) :
    ∃ pre H suf : List Char, l = pre ++ H ++ suf ∧ H.length = 40 ∧
      H.all isCommitHashChar = true ∧ (∀ q, q < pre.length → hexRunAt l q = false) := by
  have hp : hexRunAt l (Nat.find hex) = true := Nat.find_spec hex
  have hmin : ∀ q, q < Nat.find hex → hexRunAt l q = false := by
    intro q hq
    have hnot := Nat.find_min hex hq
    cases hb : hexRunAt l q with
    | false => rfl
    | true => exact absurd hb hnot
  have hlen : Nat.find hex + 40 ≤ l.length := by
    unfold hexRunAt at hp
    rcases Bool.and_eq_true_iff.mp hp with ⟨h1, _⟩
    exact of_decide_eq_true h1
  have hall : ((l.drop (Nat.find hex)).take 40).all isCommitHashChar = true := by
    unfold hexRunAt at hp
    exact (Bool.and_eq_true_iff.mp hp).2
  refine ⟨l.take (Nat.find hex), (l.drop (Nat.find hex)).take 40, l.drop (Nat.find hex + 40),
    ?_, ?_, hall, ?_⟩
  · rw [List.append_assoc]
    have hd : (l.drop (Nat.find hex)).take 40 ++ l.drop (Nat.find hex + 40)
        = l.drop (Nat.find hex) := by
      have h40 : (l.drop (Nat.find hex)).drop 40 = l.drop (Nat.find hex + 40) := by
        rw [List.drop_drop]
      rw [← h40]
      exact List.take_append_drop 40 (l.drop (Nat.find hex))
    rw [hd, List.take_append_drop]
  · rw [List.length_take, List.length_drop]
    omega
  · intro q hq
    rw [List.length_take] at hq
    exact hmin q (by omega)

/-- If some line of `content` contains the marker, the loop of
`replace_marker` rewrites exactly the first such line (by `re_sub_hash`)
and keeps every other line byte-identical. -/
theorem replace_marker_content_found (m rev : String) :
    ∀ content : List String,
      (∃ i, i < content.length ∧ strIn m (content.getD i "") = true) →
      ∃ j newC, replace_marker_content m rev content = some newC ∧
        j < content.length ∧ strIn m (content.getD j "") = true ∧
        (∀ k, k < j → strIn m (content.getD k "") = false) ∧
        newC.length = content.length ∧
        (∀ k, k < content.length → k ≠ j → newC.getD k "" = content.getD k "") ∧
        newC.getD j "" = re_sub_hash rev (content.getD j "") := by
  intro content
  induction content with
  | nil => rintro ⟨i, hi, _⟩; simp at hi
  | cons line rest ih =>
    rintro ⟨i, hi, hm⟩
    by_cases hl : strIn m line = true
    · refine ⟨0, re_sub_hash rev line :: rest, ?_, ?_, ?_, ?_, ?_, ?_, ?_⟩
      · simp [replace_marker_content, hl]
      · simp
      · simpa using hl
      · intro k hk; exact absurd hk (Nat.not_lt_zero k)
      · simp
      · intro k hk hk0
        cases k with
        | zero => exact absurd rfl hk0
        | succ n => rw [List.getD_cons_succ, List.getD_cons_succ]
      · simp
    · have hl' : strIn m line = false := Bool.eq_false_iff.mpr hl
      rcases i with _ | n
      · rw [List.getD_cons_zero] at hm; exact absurd hm hl
      · have hrest : ∃ i, i < rest.length ∧ strIn m (rest.getD i "") = true := by
          refine ⟨n, ?_, ?_⟩
          · simpa using Nat.lt_of_succ_lt_succ hi
          · rw [List.getD_cons_succ] at hm; exact hm
        rcases ih hrest with ⟨j, newC, h1, h2, h3, h4, h5, h6, h7⟩
        refine ⟨j + 1, line :: newC, ?_, ?_, ?_, ?_, ?_, ?_, ?_⟩
        · simp [replace_marker_content, hl', h1]
        · simpa using Nat.succ_lt_succ h2
        · rw [List.getD_cons_succ]; exact h3
        · intro k hk
          cases k with
          | zero => rw [List.getD_cons_zero]; exact hl'
          | succ kk => rw [List.getD_cons_succ]; exact h4 kk (Nat.lt_of_succ_lt_succ hk)
        · simp [h5]
        · intro k hk hkj
          cases k with
          | zero => rw [List.getD_cons_zero, List.getD_cons_zero]
          | succ kk =>
            rw [List.getD_cons_succ, List.getD_cons_succ]
            refine h6 kk (by simpa using Nat.lt_of_succ_lt_succ hk) ?_
            intro hh
            exact hkj (by rw [hh])
        · rw [List.getD_cons_succ, List.getD_cons_succ]; exact h7

/-- C1: for every manifest content with at least one line containing the
dependency's marker tag, the rewrite of `replace_marker` leaves every line
other than the first marker-containing line byte-identical and transforms
that one line by replacing only its leftmost 40-hex-character substring
with the revision `rev`; if that line has no 40-hex substring it is
produced unchanged. -/
theorem claim1_rewrite_localized (other : GitRepoData) (rev : String) (content : List String)
    (hex : ∃ i, i < content.length ∧ strIn (marker other) (content.getD i "") = true) :
    ∃ j newC, replace_marker_content (marker other) rev content = some newC ∧
      j < content.length ∧ strIn (marker other) (content.getD j "") = true ∧
      (∀ k, k < j → strIn (marker other) (content.getD k "") = false) ∧
      newC.length = content.length ∧
      (∀ k, k < content.length → k ≠ j → newC.getD k "" = content.getD k "") ∧
      newC.getD j "" = re_sub_hash rev (content.getD j "") ∧
      ((∀ q, hexRunAt (content.getD j "").toList q = false) →
        newC.getD j "" = content.getD j "") ∧
      ((∃ q, hexRunAt (content.getD j "").toList q = true) →
        ∃ pre H suf, (content.getD j "").toList = pre ++ H ++ suf ∧ H.length = 40 ∧
          H.all isCommitHashChar = true ∧
          (∀ q, q < pre.length → hexRunAt (content.getD j "").toList q = false) ∧
          newC.getD j "" = String.mk (pre ++ rev.toList ++ suf)) := by
  rcases replace_marker_content_found (marker other) rev content hex with
    ⟨j, newC, h1, h2, h3, h4, h5, h6, h7⟩
  refine ⟨j, newC, h1, h2, h3, h4, h5, h6, h7, ?_, ?_⟩
  · intro hno
    rw [h7]
    unfold re_sub_hash
    rw [subFirst_eq_self _ _ hno, mkToList]
  · intro hsome
    rcases exists_leftmost_decomp _ hsome with ⟨pre, H, suf, hd, hH, hx, hmin⟩
    refine ⟨pre, H, suf, hd, hH, hx, hmin, ?_⟩
    rw [h7]
    unfold re_sub_hash
    rw [hd, List.append_assoc,
      subFirst_append rev.toList H suf hH hx pre
        (fun q hq => by rw [← List.append_assoc, ← hd]; exact hmin q hq),
      ← List.append_assoc]

/-- Concrete instance of C1 on `demoContent`: the marker line (index 1) is
rewritten, all other lines are untouched. -/
theorem claim1_rewrite_localized_witness :
    ∃ j newC, replace_marker_content (marker demoDependency) demoRev demoContent = some newC ∧
      j < demoContent.length ∧ strIn (marker demoDependency) (demoContent.getD j "") = true ∧
      (∀ k, k < j → strIn (marker demoDependency) (demoContent.getD k "") = false) ∧
      newC.length = demoContent.length ∧
      (∀ k, k < demoContent.length → k ≠ j → newC.getD k "" = demoContent.getD k "") ∧
      newC.getD j "" = re_sub_hash demoRev (demoContent.getD j "") ∧
      ((∀ q, hexRunAt (demoContent.getD j "").toList q = false) →
        newC.getD j "" = demoContent.getD j "") ∧
      ((∃ q, hexRunAt (demoContent.getD j "").toList q = true) →
        ∃ pre H suf, (demoContent.getD j "").toList = pre ++ H ++ suf ∧ H.length = 40 ∧
          H.all isCommitHashChar = true ∧
          (∀ q, q < pre.length → hexRunAt (demoContent.getD j "").toList q = false) ∧
          newC.getD j "" = String.mk (pre ++ demoRev.toList ++ suf)) :=
  claim1_rewrite_localized demoDependency demoRev demoContent ⟨1, by decide, by decide⟩

/-- If no line contains the marker, the loop reaches its `else` branch. -/
theorem replace_marker_content_none (m rev : String) :
    ∀ content : List String, (∀ line ∈ content, strIn m line = false) →
      replace_marker_content m rev content = none := by
  intro content
  induction content with
  | nil => intro _; rfl
  | cons line rest ih =>
    intro h
    have hl : strIn m line = false := h line (List.mem_cons_self line rest)
    simp [replace_marker_content, hl, ih fun x hx => h x (List.mem_cons_of_mem line hx)]

/-- C4: for every manifest in which no line contains the dependency's
marker tag, processing the dependent is a skip: one diagnostic is printed,
and no manifest write, staging, commit or push happens, so the repository
stays unmodified. -/
theorem claim4_absent_marker_skip (self other : GitRepoData) (olc : String)
    (content : List String) (status_out : String)
    (habsent : ∀ line ∈ content, strIn (marker other) line = false) :
    replace_marker self other olc content status_out =
      [.printMsg ("@" ++ bazel_workspace self.repo ++ " has no dependency marker of @"
        ++ bazel_workspace other.repo ++ " to replace")] ∧
    countWrites (replace_marker self other olc content status_out) = 0 ∧
    countAdds (replace_marker self other olc content status_out) = 0 ∧
    countCommits (replace_marker self other olc content status_out) = 0 ∧
    countPushes (replace_marker self other olc content status_out) = 0 := by
  have h := replace_marker_content_none (marker other) olc content habsent
  have htr : replace_marker self other olc content status_out =
      [.printMsg ("@" ++ bazel_workspace self.repo ++ " has no dependency marker of @"
        ++ bazel_workspace other.repo ++ " to replace")] := by
    unfold replace_marker
    rw [h]
  rw [htr]
  exact ⟨rfl, rfl, rfl, rfl, rfl⟩

/-- A list is a prefix of itself extended. -/
theorem isPrefixOfAppend (pat t : List Char) : pat.isPrefixOf (pat ++ t) = true := by
  induction pat with
  | nil => simp [List.isPrefixOf]
  | cons a as ih => simp [List.isPrefixOf, ih]

/-- The scan `pyIn` finds a pattern that literally occurs. -/
theorem pyInAppend (pat : List Char) : ∀ x y : List Char, pyIn pat (x ++ (pat ++ y)) = true := by
  intro x
  induction x with
  | nil =>
    intro y
    rcases pat with _ | ⟨a, as⟩
    · induction y with
      | nil => rfl
      | cons c rest ihy => simp [pyIn, List.isPrefixOf]
    · have hp := isPrefixOfAppend (a :: as) y
      simp only [List.cons_append] at hp
      simp [pyIn, hp]
  | cons c x' ih =>
    intro y
    simp only [List.cons_append]
    simp [pyIn, ih y]

/-- The test `strIn` finds a pattern that literally occurs. -/
theorem strInConcat (pat x y : String) : strIn pat (x ++ pat ++ y) = true := by
  unfold strIn
  have h : (x ++ pat ++ y).toList = x.toList ++ (pat.toList ++ y.toList) := by
    rw [String.append_assoc]
    rfl
  rw [h]
  exact pyInAppend pat.toList x.toList y.toList

/-- C2: after staging the rewritten manifest, the commit step queries
`git status` under the fixed `LANG=C` rendering and compares it textually
against the clean-tree sentinel.  Sentinel present: only a diagnostic
naming the already-satisfied dependency workspace and its revision is
emitted, with no commit and no push.  Sentinel absent: a commit is created
whose message is exactly `update @` + workspace + ` dependency to latest `
+ branch of the dependency, and the current branch is pushed to the
authenticated remote. -/
theorem claim2_commit_step (self other : GitRepoData) (olc : String)
    (content newC : List String) (status_out : String)
    (hfound : replace_marker_content (marker other) olc content = some newC) :
    (strIn CLEAN_TREE_MSG status_out = true →
      replace_marker self other olc content status_out =
        [.writeWorkspace newC, .gitAdd "WORKSPACE", .gitStatus "C",
         .printMsg ("@" ++ bazel_workspace self.repo ++ " already depends on @"
            ++ bazel_workspace other.repo ++ " at commit " ++ olc)] ∧
      strIn (bazel_workspace other.repo)
        ("@" ++ bazel_workspace self.repo ++ " already depends on @"
            ++ bazel_workspace other.repo ++ " at commit " ++ olc) = true ∧
      strIn olc
        ("@" ++ bazel_workspace self.repo ++ " already depends on @"
            ++ bazel_workspace other.repo ++ " at commit " ++ olc) = true ∧
      countCommits (replace_marker self other olc content status_out) = 0 ∧
      countPushes (replace_marker self other olc content status_out) = 0) ∧
    (strIn CLEAN_TREE_MSG status_out = false →
      replace_marker self other olc content status_out =
        [.writeWorkspace newC, .gitAdd "WORKSPACE", .gitStatus "C",
         .gitCommit ("update @" ++ bazel_workspace other.repo ++ " dependency to latest "
            ++ other.branch),
         .printMsg ("Pushing the change to " ++ remote_url self ++ " (" ++ self.branch
            ++ " branch)"),
         .gitPush (remote_url self) self.branch,
         .printMsg ("The change has been pushed to " ++ remote_url self ++ " ("
            ++ self.branch ++ " branch)")]) := by
  constructor
  · intro hs
    have htr : replace_marker self other olc content status_out =
        [.writeWorkspace newC, .gitAdd "WORKSPACE", .gitStatus "C",
         .printMsg ("@" ++ bazel_workspace self.repo ++ " already depends on @"
            ++ bazel_workspace other.repo ++ " at commit " ++ olc)] := by
      unfold replace_marker
      rw [hfound]
      simp [hs]
    refine ⟨htr, ?_, ?_, ?_, ?_⟩
    · have hshape : ("@" ++ bazel_workspace self.repo ++ " already depends on @"
          ++ bazel_workspace other.repo ++ " at commit " ++ olc)
          = ("@" ++ bazel_workspace self.repo ++ " already depends on @")
            ++ bazel_workspace other.repo ++ (" at commit " ++ olc) := by
        simp [String.append_assoc]
      rw [hshape]
      exact strInConcat _ _ _
    · have hshape : ("@" ++ bazel_workspace self.repo ++ " already depends on @"
          ++ bazel_workspace other.repo ++ " at commit " ++ olc)
          = ("@" ++ bazel_workspace self.repo ++ " already depends on @"
            ++ bazel_workspace other.repo ++ " at commit ") ++ olc ++ "" := by
        simp [String.append_assoc]
      rw [hshape]
      exact strInConcat _ _ _
    · rw [htr]; rfl
    · rw [htr]; rfl
  · intro hs
    unfold replace_marker
    rw [hfound]
    simp [hs]

set_option maxRecDepth 40000 in
/-- Concrete instance of C2 on `demoContent` (both status responses). -/
theorem claim2_commit_step_witness :
    (strIn CLEAN_TREE_MSG demoStatusClean = true →
      replace_marker demoUser demoDependency demoRev demoContent demoStatusClean =
        [.writeWorkspace demoNewContent, .gitAdd "WORKSPACE", .gitStatus "C",
         .printMsg ("@" ++ bazel_workspace demoUser.repo ++ " already depends on @"
            ++ bazel_workspace demoDependency.repo ++ " at commit " ++ demoRev)] ∧
      strIn (bazel_workspace demoDependency.repo)
        ("@" ++ bazel_workspace demoUser.repo ++ " already depends on @"
            ++ bazel_workspace demoDependency.repo ++ " at commit " ++ demoRev) = true ∧
      strIn demoRev
        ("@" ++ bazel_workspace demoUser.repo ++ " already depends on @"
            ++ bazel_workspace demoDependency.repo ++ " at commit " ++ demoRev) = true ∧
      countCommits (replace_marker demoUser demoDependency demoRev demoContent demoStatusClean) = 0 ∧
      countPushes (replace_marker demoUser demoDependency demoRev demoContent demoStatusClean) = 0) ∧
    (strIn CLEAN_TREE_MSG demoStatusClean = false →
      replace_marker demoUser demoDependency demoRev demoContent demoStatusClean =
        [.writeWorkspace demoNewContent, .gitAdd "WORKSPACE", .gitStatus "C",
         .gitCommit ("update @" ++ bazel_workspace demoDependency.repo ++ " dependency to latest "
            ++ demoDependency.branch),
         .printMsg ("Pushing the change to " ++ remote_url demoUser ++ " (" ++ demoUser.branch
            ++ " branch)"),
         .gitPush (remote_url demoUser) demoUser.branch,
         .printMsg ("The change has been pushed to " ++ remote_url demoUser ++ " ("
            ++ demoUser.branch ++ " branch)")]) :=
  claim2_commit_step demoUser demoDependency demoRev demoContent demoNewContent demoStatusClean
    (by decide)

/-- Concrete instance of C4 on `demoContentNoMarker`. -/
theorem claim4_absent_marker_skip_witness :
    replace_marker demoUser demoDependency demoRev demoContentNoMarker demoStatusDirty =
      [.printMsg ("@" ++ bazel_workspace demoUser.repo ++ " has no dependency marker of @"
        ++ bazel_workspace demoDependency.repo ++ " to replace")] ∧
    countWrites (replace_marker demoUser demoDependency demoRev demoContentNoMarker demoStatusDirty) = 0 ∧
    countAdds (replace_marker demoUser demoDependency demoRev demoContentNoMarker demoStatusDirty) = 0 ∧
    countCommits (replace_marker demoUser demoDependency demoRev demoContentNoMarker demoStatusDirty) = 0 ∧
    countPushes (replace_marker demoUser demoDependency demoRev demoContentNoMarker demoStatusDirty) = 0 :=
  claim4_absent_marker_skip demoUser demoDependency demoRev demoContentNoMarker demoStatusDirty
    (by decide)

/-- C6 (the code contradicts it): `GitRepo.configure` never sets the
`is_configured` flag, so the flag is mutated zero times (first conjunct:
no clone operation changes it) and the configuration step runs on every
clone rather than exactly once per process: a run over two dependents (two
`clone()` calls on fresh objects, as `main` performs) configures twice,
and even a second clone on the same object configures again. -/
theorem claim6_configure_runs_per_clone :
    (∀ (s : RunState) (d u b : String), ((clone_op s d u b).1).is_configured = s.is_configured) ∧
    countConfigures ((clone_op initState "dir1" "url1" "b1").2
      ++ (clone_op initState "dir2" "url2" "b2").2) = 2 ∧
    countConfigures ((clone_op (clone_op initState "dir1" "url1" "b1").1 "dir2" "url1" "b1").2) = 1 :=
  ⟨fun _ _ _ _ => rfl, by decide, by decide⟩

/-- Once the clone directory is memoized, any number of further obtentions
return it and perform no action at all. -/
theorem run_obtains_cached (remote branch : String) :
    ∀ (ds : List String) (s : RunState) (d : String), s.clone_dir = some d →
      run_obtains s remote branch ds = (s, List.replicate ds.length d, []) := by
  intro ds
  induction ds with
  | nil => intro s d h; rfl
  | cons x ds' ih =>
    intro s d h
    simp [run_obtains, ensure_cloned_dir, h, ih s d h, List.replicate_succ]

/-- C7: obtaining a working copy clones and checks out at most once per
run: from a fresh object the first obtention configures, clones into the
supplied fresh directory and checks the branch out, memoizing the
directory; any obtention on a memoized state returns the stored directory
with no action; and over any non-empty sequence of obtentions there is
exactly one clone and one checkout and every caller receives the first
directory. -/
theorem claim7_obtain_memoized :
    (∀ d remote branch : String,
      ensure_cloned_dir initState d remote branch =
        ({ is_configured := false, clone_dir := some d }, d,
          configure_actions ++ [.gitClone remote d, .gitCheckout branch])) ∧
    (∀ (s : RunState) (dmem dfresh remote branch : String), s.clone_dir = some dmem →
      ensure_cloned_dir s dfresh remote branch = (s, dmem, [])) ∧
    (∀ (remote branch d : String) (ds : List String),
      countClones (run_obtains initState remote branch (d :: ds)).2.2 = 1 ∧
      countCheckouts (run_obtains initState remote branch (d :: ds)).2.2 = 1 ∧
      (run_obtains initState remote branch (d :: ds)).2.1 = List.replicate (ds.length + 1) d) := by
  refine ⟨fun d remote branch => rfl, ?_, ?_⟩
  · intro s dmem dfresh remote branch h
    simp [ensure_cloned_dir, h]
  · intro remote branch d ds
    have hc := run_obtains_cached remote branch ds
      { is_configured := false, clone_dir := some d } d rfl
    have hrun : run_obtains initState remote branch (d :: ds) =
        ({ is_configured := false, clone_dir := some d },
         d :: List.replicate ds.length d,
         (configure_actions ++ [.gitClone remote d, .gitCheckout branch]) ++ []) := by
      simp [run_obtains, ensure_cloned_dir, clone_op, initState, hc]
    rw [hrun]
    refine ⟨rfl, rfl, ?_⟩
    simp [List.replicate_succ]

/-- Concrete instance of the memoized branch of C7: a second obtention returns
the stored directory without cloning. -/
theorem claim7_obtain_memoized_witness :
    ensure_cloned_dir { is_configured := false, clone_dir := some "/tmp/git.docs" }
      "/tmp/fresh" "https://u" "development" =
      ({ is_configured := false, clone_dir := some "/tmp/git.docs" }, "/tmp/git.docs", []) :=
  claim7_obtain_memoized.2.1
    { is_configured := false, clone_dir := some "/tmp/git.docs" }
    "/tmp/git.docs" "/tmp/fresh" "https://u" "development" rfl

/-- A leading whitespace character does not affect `pySplit`. -/
theorem pySplit_ws (c : Char) (xs : List Char) (h : isWs c = true) :
    pySplit (c :: xs) = pySplit xs := by
  rcases xs with _ | ⟨d, rest⟩
  · simp [pySplit, h]
  · simp [pySplit, h]

/-- A leading non-whitespace character starts a maximal token: `pySplit`
takes the token and continues after it. -/
theorem pySplit_tok : ∀ (xs : List Char) (c : Char), isWs c = false →
    pySplit (c :: xs) = (c :: xs.takeWhile (fun x => ! isWs x))
      :: pySplit (xs.dropWhile (fun x => ! isWs x)) := by
  intro xs
  induction xs with
  | nil => intro c h; simp [pySplit, h]
  | cons d rest ih =>
    intro c h
    by_cases hd : isWs d = true
    · simp [pySplit, h, hd, List.takeWhile_cons, List.dropWhile_cons]
    · have hd' : isWs d = false := Bool.eq_false_iff.mpr hd
      simp [pySplit, h, hd', List.takeWhile_cons, List.dropWhile_cons, ih d hd']

/-- Nesting `takeWhile` under a weaker predicate is the identity. -/
theorem takeWhileTakeWhileOfImp (p q : Char → Bool) (himp : ∀ a, p a = true → q a = true) :
    ∀ l : List Char, (l.takeWhile q).takeWhile p = l.takeWhile p := by
  intro l
  induction l with
  | nil => rfl
  | cons a l' ih =>
    by_cases hp : p a = true
    · have hq := himp a hp
      simp [List.takeWhile_cons, hp, hq, ih]
    · have hp' : p a = false := Bool.eq_false_iff.mpr hp
      by_cases hq : q a = true
      · simp [List.takeWhile_cons, hp', hq]
      · simp [List.takeWhile_cons, hp', Bool.eq_false_iff.mpr hq]

/-- A non-whitespace character is not a newline. -/
theorem notWsImpNeNl : ∀ a : Char, (! isWs a) = true → decide (a ≠ '\n') = true := by
  intro a ha
  rw [decide_eq_true_eq]
  intro heq
  subst heq
  have hnl : isWs '\n' = true := by decide
  rw [hnl] at ha
  simp at ha

/-- If the first line of the output has a first token, it is also the first
token of the whole output. -/
theorem pySplitHeadFirstLine :
    ∀ (l : List Char) (t : List Char) (ts : List (List Char)),
      pySplit (l.takeWhile (fun c => c ≠ '\n')) = t :: ts →
      ∃ ts', pySplit l = t :: ts' := by
  intro l
  induction l with
  | nil => intro t ts h; simp [pySplit] at h
  | cons c xs ih =>
    intro t ts h
    by_cases hnl : c = '\n'
    · subst hnl
      rw [List.takeWhile_cons] at h
      simp [pySplit] at h
    · rw [List.takeWhile_cons, if_pos (by simp [hnl])] at h
      by_cases hws : isWs c = true
      · rw [pySplit_ws c _ hws] at h
        rcases ih t ts h with ⟨ts', hts⟩
        exact ⟨ts', by rw [pySplit_ws c xs hws]; exact hts⟩
      · have hws' : isWs c = false := Bool.eq_false_iff.mpr hws
        rw [pySplit_tok _ c hws'] at h
        have hcomp : ((xs.takeWhile (fun c => c ≠ '\n')).takeWhile (fun x => ! isWs x))
            = xs.takeWhile (fun x => ! isWs x) :=
          takeWhileTakeWhileOfImp _ _ notWsImpNeNl xs
        rw [List.cons.injEq] at h
        refine ⟨pySplit (xs.dropWhile (fun x => ! isWs x)), ?_⟩
        rw [pySplit_tok xs c hws']
        congr 1
        rw [← h.1, hcomp]

/-- C8: `last_commit` returns the first whitespace-delimited token of the
first line of the `git ls-remote` output (trailing ref-path tokens, and
everything on later lines, discarded), and fails fatally, the failure
propagated, when the query process exits non-zero or returns no output. -/
theorem claim8_last_commit_parse (query : Except Nat String) :
    (∀ code, query = .error code → last_commit_step query = .error (.calledProcessError code)) ∧
    (query = .ok "" → last_commit_step query = .error .indexError) ∧
    (∀ out t, query = .ok out → spec_first_token_of_first_line out = some t →
      last_commit_step query = .ok t) := by
  refine ⟨?_, ?_, ?_⟩
  · intro code h; rw [h]; rfl
  · intro h; rw [h]; rfl
  · intro out t hq hs
    subst hq
    unfold spec_first_token_of_first_line at hs
    unfold last_commit_step
    rcases hsp : pySplit (first_line out).toList with _ | ⟨t0, ts0⟩
    · rw [hsp] at hs; exact absurd hs (by simp)
    · rw [hsp] at hs
      have ht : String.mk t0 = t := by simpa using hs
      have hfl : (first_line out).toList = out.toList.takeWhile (fun c => c ≠ '\n') := rfl
      rw [hfl] at hsp
      rcases pySplitHeadFirstLine out.toList t0 ts0 hsp with ⟨ts', hts⟩
      show (match pySplit out.toList with
        | [] => Except.error LastCommitFatal.indexError
        | t :: _ => Except.ok (String.mk t)) = Except.ok t
      rw [hts]
      exact congrArg Except.ok ht

/-- Concrete instance of C8: a two-line, two-column `git ls-remote` output
parses to the revision; empty output and a non-zero exit fail. -/
theorem claim8_last_commit_parse_witness :
    last_commit_step (.ok "9f8e7d6c5b4a39281706f5e4d3c2b1a098765432\trefs/heads/main\nother\tstuff\n")
      = .ok "9f8e7d6c5b4a39281706f5e4d3c2b1a098765432" ∧
    last_commit_step (.ok "") = .error .indexError ∧
    last_commit_step (.error 128) = .error (.calledProcessError 128) := by
  refine ⟨?_, ?_, ?_⟩
  · exact (claim8_last_commit_parse _).2.2 _ _ rfl (by decide)
  · exact (claim8_last_commit_parse _).2.1 rfl
  · exact (claim8_last_commit_parse _).1 128 rfl

/-- Splitting at colons produces one more part than there are colons. -/
theorem splitColonLength : ∀ l : List Char,
    (splitColon l).length = countColon l + 1 := by
  intro l
  induction l with
  | nil => rfl
  | cons c rest ih =>
    by_cases hc : c = ':'
    · simp [splitColon, countColon, hc, ih]
      omega
    · rcases hsp : splitColon rest with _ | ⟨p, ps⟩
      · rw [hsp] at ih
        simp at ih
      · rw [hsp] at ih
        simp only [List.length_cons] at ih
        simp [splitColon, countColon, hc, hsp]
        omega

/-- C9: when the run is in the canonical upstream environment and the
credential environment variable is absent, `main` raises the fatal
configuration error with an empty action trace — no git or network action
happens — whatever the other arguments are. -/
theorem claim9_missing_credential_fatal (env : PyEnv) (dependencyArg : String)
    (userArgs : List String) (dep_commit : String) (worlds : List UserWorld)
    (hup : is_building_upstream env = true) (hcred : env.grabl_credential_var = none) :
    mainModel env dependencyArg userArgs dep_commit worlds =
      (.credentialError, []) := by
  unfold mainModel
  rw [hup]
  unfold grabl_credential
  rw [hcred]
  simp

/-- Concrete instance of C9: upstream CI environment, credential unset,
otherwise valid arguments. -/
theorem claim9_missing_credential_fatal_witness :
    mainModel
      { circle_repository_url := some "https://github.com/graknlabs/grakn",
        grabl_credential_var := none }
      "grakn:master" ["docs:development"] "9f8e7d6c5b4a39281706f5e4d3c2b1a098765432"
      [{ temp_dir := "/tmp/git.docs", manifest := [], status_out := "" }] =
      (.credentialError, []) :=
  claim9_missing_credential_fatal _ _ _ _ _ (by decide) rfl

/-- C10: `GitRepo.__init__` accepts a coordinate token only when it splits
on `:` into exactly two parts; a token with no colon or more than one
colon raises `ValueError` before anything else, whatever the environment;
on success the `repo` and `branch` fields are the two parts. -/
theorem claim10_coordinates_parse (env : PyEnv) (git_coordinates : String) :
    (∀ r, gitRepoInit env git_coordinates = .ok r →
      (splitColonStr git_coordinates).length = 2 ∧
      r.repo = (splitColonStr git_coordinates).getD 0 "" ∧
      r.branch = (splitColonStr git_coordinates).getD 1 "") ∧
    (countColon git_coordinates.toList ≠ 1 →
      gitRepoInit env git_coordinates = .error .valueError) ∧
    (countColon git_coordinates.toList = 1 →
      ∀ cred, env.grabl_credential_var = some cred →
      gitRepoInit env git_coordinates =
        .ok { repo := (splitColonStr git_coordinates).getD 0 "",
              branch := (splitColonStr git_coordinates).getD 1 "",
              credential := "grabl:" ++ cred }) := by
  have hlen : (splitColonStr git_coordinates).length
      = countColon git_coordinates.toList + 1 := by
    unfold splitColonStr
    rw [List.length_map, splitColonLength]
  refine ⟨?_, ?_, ?_⟩
  · intro r h
    unfold gitRepoInit at h
    by_cases h2 : (splitColonStr git_coordinates).length = 2
    · refine ⟨h2, ?_, ?_⟩ <;>
      · rw [if_neg (by omega)] at h
        rcases henv : grabl_credential env with e | cred
        · rw [henv] at h; exact absurd h (by simp)
        · rw [henv] at h
          have hr := Except.ok.inj h
          rw [← hr]
    · rw [if_pos (by omega)] at h
      exact absurd h (by simp)
  · intro hc
    unfold gitRepoInit
    rw [if_pos (by omega)]
  · intro hc cred hcred
    unfold gitRepoInit
    rw [if_neg (by omega)]
    unfold grabl_credential
    rw [hcred]

/-- Concrete instances of C10: a well-formed token constructs the object
with its two parts; zero or two colons raise `ValueError` even with the
credential present. -/
theorem claim10_coordinates_parse_witness :
    gitRepoInit { circle_repository_url := some "u", grabl_credential_var := some "token" }
      "grakn:master" =
      .ok { repo := "grakn", branch := "master", credential := "grabl:token" } ∧
    gitRepoInit { circle_repository_url := some "u", grabl_credential_var := some "token" }
      "name:branch:extra" = .error .valueError ∧
    gitRepoInit { circle_repository_url := some "u", grabl_credential_var := some "token" }
      "nocolon" = .error .valueError := by
  refine ⟨?_, ?_, ?_⟩
  · exact (claim10_coordinates_parse _ _).2.2 (by decide) "token" rfl
  · exact (claim10_coordinates_parse _ _).2.1 (by decide)
  · exact (claim10_coordinates_parse _ _).2.1 (by decide)
